import Mathlib

/-!
# AuthentiX — formal model of the multi-factor authentication core

A shallow embedding of the AuthentiX frontend authentication code:

* the four-step authenticate page (`handleStepComplete` and its driver),
  from `src/pages/Authenticate.tsx` (bundled inside `src/hooks/useBluetooth.ts`);
* the PIN component (`PinAuth.tsx`): keypad state, SHA-256 hashing
  (`hashPin`), enrollment and verification (`processPinAuth`);
* the `useAuthMethods` hook: `updateMethodStatus` (keyed upsert into
  `authentication_methods`) and `logAuthAttempt` (audit writes);
* the voice/face enrollment coordinators (`processVoiceAuth`,
  `processFaceAuth`);
* the matching-service threshold decision, modelled from the spec (the
  Python backend is not part of the frontend source tree).

Strings are Lean `String`s (lists of unicode characters, as in JS);
machine 32-bit words are `Nat` values reduced by `% 2^32`; database
calls are modelled by explicit outcome values (`DbCall`), and thrown /
caught JS exceptions by `Except`-shaped case analysis.
-/

namespace AuthentiX

/-! ## SHA-256 (the `crypto.subtle.digest('SHA-256', ...)` call in `hashPin`)

`hashPin` UTF-8–encodes the PIN string and hex-encodes the SHA-256 digest,
lowercase, each byte zero-padded to two digits (`padStart(2, '0')`). -/

/-- Truncate to a 32-bit word. -/
def w32 (n : Nat) : Nat := n % 4294967296

/-- 32-bit right rotation. -/
def rotr (x n : Nat) : Nat := w32 ((x >>> n) ||| (x <<< (32 - n)))

/-- 32-bit right shift. -/
def shr (x n : Nat) : Nat := x >>> n

/-- SHA-256 round constants (FIPS 180-4, written in decimal). -/
def sha256K : List Nat :=
  [1116352408, 1899447441, 3049323471, 3921009573, 961987163,
   1508970993, 2453635748, 2870763221, 3624381080, 310598401,
   607225278, 1426881987, 1925078388, 2162078206, 2614888103,
   3248222580, 3835390401, 4022224774, 264347078, 604807628,
   770255983, 1249150122, 1555081692, 1996064986, 2554220882,
   2821834349, 2952996808, 3210313671, 3336571891, 3584528711,
   113926993, 338241895, 666307205, 773529912, 1294757372,
   1396182291, 1695183700, 1986661051, 2177026350, 2456956037,
   2730485921, 2820302411, 3259730800, 3345764771, 3516065817,
   3600352804, 4094571909, 275423344, 430227734, 506948616,
   659060556, 883997877, 958139571, 1322822218, 1537002063,
   1747873779, 1955562222, 2024104815, 2227730452, 2361852424,
   2428436474, 2756734187, 3204031479, 3329325298]

/-- SHA-256 initial hash value (FIPS 180-4, written in decimal). -/
def sha256H0 : List Nat :=
  [1779033703, 3144134277, 1013904242, 2773480762,
   1359893119, 2600822924, 528734635, 1541459225]

/-- UTF-8 encoding of one unicode code point (the `TextEncoder` step). -/
def utf8Bytes (c : Nat) : List Nat :=
  if c < 0x80 then [c]
  else if c < 0x800 then
    [0xc0 ||| (c >>> 6), 0x80 ||| (c &&& 0x3f)]
  else if c < 0x10000 then
    [0xe0 ||| (c >>> 12), 0x80 ||| ((c >>> 6) &&& 0x3f), 0x80 ||| (c &&& 0x3f)]
  else
    [0xf0 ||| (c >>> 18), 0x80 ||| ((c >>> 12) &&& 0x3f),
     0x80 ||| ((c >>> 6) &&& 0x3f), 0x80 ||| (c &&& 0x3f)]

/-- UTF-8 encode a string to a byte list. -/
def strUtf8 (s : String) : List Nat :=
  (s.data.map (fun c => c.toNat)).flatMap utf8Bytes

/-- SHA-256 padding: append `0x80`, zero bytes to 56 mod 64, then the
bit length as a 64-bit big-endian integer. -/
def sha256Pad (msg : List Nat) : List Nat :=
  let len := msg.length
  let zeros := (119 - len % 64) % 64
  let bitLen := len * 8
  msg ++ [0x80] ++ List.replicate zeros 0 ++
    [(bitLen >>> 56) % 256, (bitLen >>> 48) % 256, (bitLen >>> 40) % 256, (bitLen >>> 32) % 256,
     (bitLen >>> 24) % 256, (bitLen >>> 16) % 256, (bitLen >>> 8) % 256, bitLen % 256]

/-- Split a byte list into 64-byte blocks. -/
def sha256Blocks (bs : List Nat) : List (List Nat) :=
  (List.range (bs.length / 64)).map (fun i => (bs.drop (64 * i)).take 64)

/-- Big-endian 32-bit words of one 64-byte block. -/
def blockWords (block : List Nat) : List Nat :=
  (List.range 16).map (fun i =>
    (block.getD (4 * i) 0) * 16777216 + (block.getD (4 * i + 1) 0) * 65536 +
    (block.getD (4 * i + 2) 0) * 256 + block.getD (4 * i + 3) 0)

/-- Message-schedule extension from 16 to 64 words. -/
def sha256Extend : Nat → List Nat → List Nat
  | 0, w => w
  | n + 1, w =>
    let i := w.length
    let w15 := w.getD (i - 15) 0
    let w2 := w.getD (i - 2) 0
    let s0 := (rotr w15 7) ^^^ (rotr w15 18) ^^^ (shr w15 3)
    let s1 := (rotr w2 17) ^^^ (rotr w2 19) ^^^ (shr w2 10)
    sha256Extend n (w ++ [w32 (w.getD (i - 16) 0 + s0 + w.getD (i - 7) 0 + s1)])

/-- One round of the SHA-256 compression function. -/
def sha256Round (st : List Nat) (k : Nat) (w : Nat) : List Nat :=
  match st with
  | [a, b, c, d, e, f, g, h] =>
    let s1 := (rotr e 6) ^^^ (rotr e 11) ^^^ (rotr e 25)
    let ch := (e &&& f) ^^^ ((4294967295 - e) &&& g)
    let t1 := w32 (h + s1 + ch + k + w)
    let s0 := (rotr a 2) ^^^ (rotr a 13) ^^^ (rotr a 22)
    let mj := (a &&& b) ^^^ (a &&& c) ^^^ (b &&& c)
    let t2 := w32 (s0 + mj)
    [w32 (t1 + t2), a, b, c, w32 (d + t1), e, f, g]
  | st => st

/-- Compress one block into the running hash state. -/
def sha256Compress (h : List Nat) (block : List Nat) : List Nat :=
  let w := sha256Extend 48 (blockWords block)
  let st := (List.zip sha256K w).foldl (fun st kw => sha256Round st kw.1 kw.2) h
  (List.zip h st).map (fun p => w32 (p.1 + p.2))

/-- SHA-256 digest of a byte list, as a list of 32 bytes. -/
def sha256Bytes (msg : List Nat) : List Nat :=
  let final := (sha256Blocks (sha256Pad msg)).foldl sha256Compress sha256H0
  final.flatMap (fun x => [(x >>> 24) % 256, (x >>> 16) % 256, (x >>> 8) % 256, x % 256])

/-- One lowercase hex digit. -/
def hexDigit (n : Nat) : Char :=
  if n < 10 then Char.ofNat (48 + n) else Char.ofNat (87 + n)

/-- Two-digit lowercase hex of one byte (`toString(16).padStart(2, '0')`). -/
def byteHex (b : Nat) : List Char := [hexDigit (b / 16), hexDigit (b % 16)]

/-- Lowercase hex SHA-256 digest of a string: the value `hashPin` computes. -/
def sha256HexOfString (s : String) : String :=
  String.mk ((sha256Bytes (strUtf8 s)).flatMap byteHex)

/-- `hashPin` from `PinAuth.tsx`: UTF-8 encode, SHA-256, lowercase hex. -/
def hashPin (pin : String) : String := sha256HexOfString pin

set_option maxRecDepth 10000 in
/-- The NIST test vector for the one-block message: the embedding above is
genuine SHA-256. -/
theorem sha256HexOfString_testVector :
    sha256HexOfString ("abc") =
      ("ba7816bf8f01cfea414140de5dae2223b00361a396177a9cb410ff61f20015ad") := by
  decide

/-! ## The four authentication steps (`type AuthStep` in `Authenticate.tsx`) -/

/-- The four factors, named as in `type AuthStep = 'face' | 'voice' | 'gesture' | 'pin'`. -/
inductive AuthStep
  | face
  | voice
  | gesture
  | pin
deriving DecidableEq, Repr

/-- `const steps: AuthStep[] = ['face', 'voice', 'gesture', 'pin']`. -/
def steps : List AuthStep := [.face, .voice, .gesture, .pin]

/-- `steps.indexOf(step)` for the constant list `steps`. -/
def stepIndex : AuthStep → Nat
  | .face => 0
  | .voice => 1
  | .gesture => 2
  | .pin => 3

/-! ## The Authenticate page state machine (`Authenticate.tsx`) -/

/-- The `stepStatus` record: `null` before a step is attempted,
`true`/`false` once `handleStepComplete` ran for it. -/
structure StepStatus where
  face : Option Bool
  voice : Option Bool
  gesture : Option Bool
  pin : Option Bool
deriving DecidableEq, Repr

/-- `setStepStatus(prev => ({ ...prev, [step]: success }))`. -/
def setStatus (ss : StepStatus) (step : AuthStep) (b : Bool) : StepStatus :=
  match step with
  | .face => { ss with face := some b }
  | .voice => { ss with voice := some b }
  | .gesture => { ss with gesture := some b }
  | .pin => { ss with pin := some b }

/-- Terminal observables of one sequence: the failure toast
(`${step} authentication failed`) or the success toast plus navigation
(`'Authentication successful!'`). -/
inductive SeqResult
  | inProgress
  | failed (step : AuthStep)
  | completed
deriving DecidableEq, Repr

/-- The React state of the Authenticate page that `handleStepComplete`
reads and writes, plus the terminal observable. -/
structure AuthPageState where
  currentStep : AuthStep
  stepStatus : StepStatus
  isAuthenticating : Bool
  showModal : Bool
  result : SeqResult
deriving DecidableEq, Repr

/-- `handleStepComplete(step, success)` from `Authenticate.tsx`: record the
outcome and close the modal; on failure stop authenticating (the sequence is
rejected); on success advance along `steps`, or finish after the last step. -/
def handleStepComplete (st : AuthPageState) (step : AuthStep) (success : Bool) : AuthPageState :=
  let st1 := { st with stepStatus := setStatus st.stepStatus step success, showModal := false }
  if success = false then
    { st1 with isAuthenticating := false, result := .failed step }
  else
    let currentIndex := stepIndex step
    if currentIndex < steps.length - 1 then
      { st1 with currentStep := steps.getD (currentIndex + 1) st1.currentStep, showModal := true }
    else
      { st1 with isAuthenticating := false, result := .completed }

/-- `startAuthentication`: `setIsAuthenticating(true); setCurrentStep('face');
setShowModal(true)` applied to the initial page state. -/
def startState : AuthPageState :=
  { currentStep := .face
    stepStatus := { face := none, voice := none, gesture := none, pin := none }
    isAuthenticating := true
    showModal := true
    result := .inProgress }

/-- Drive the page: while the modal for `currentStep` is shown, that step's
verification component runs its coordinator, producing outcome
`outcomes currentStep`, records one `AuthAttempt` for the step (collected in
the trace), and calls `onComplete`, i.e. `handleStepComplete`. Fuel bounds
the loop; 5 exceeds the four steps, so it never runs out. -/
def runAuthFrom (outcomes : AuthStep → Bool) :
    Nat → AuthPageState → List (AuthStep × Bool) → AuthPageState × List (AuthStep × Bool)
  | 0, st, trace => (st, trace)
  | fuel + 1, st, trace =>
    if st.showModal then
      let o := outcomes st.currentStep
      runAuthFrom outcomes fuel (handleStepComplete st st.currentStep o)
        (trace ++ [(st.currentStep, o)])
    else
      (st, trace)

/-- One full authentication sequence from `startAuthentication`, given the
per-step verification outcomes. Returns the final page state and the trace of
coordinator invocations (step, outcome) — one audit attempt each. -/
def runAuth (outcomes : AuthStep → Bool) : AuthPageState × List (AuthStep × Bool) :=
  runAuthFrom outcomes 5 startState []

/-! ## Database calls and the audit log (`useAuthMethods.ts`) -/

/-- Outcome of one Supabase call: resolves cleanly, resolves with an
`error` object in the response, or rejects (the `await` throws). -/
inductive DbCall
  | ok
  | errObj
  | throws
deriving DecidableEq, Repr

/-- One `AuthAttempt` row, as inserted by `logAuthAttempt`: the `auth_logs`
row carries `status: success ? 'success' : 'failure'` and `metadata || {}`,
the `authentication_logs` row carries the raw `success` boolean; both are
determined by these fields. `confidence_score` is `none` when the caller
omitted the argument (`undefined`), `metadata` likewise. -/
structure LogRec where
  user_id : String
  method_type : AuthStep
  success : Bool
  confidence_score : Option ℚ
  metadata : Option String
deriving DecidableEq, Repr

/-- The two audit tables written by `logAuthAttempt`. -/
structure AuditDb where
  authLogs : List LogRec
  authenticationLogs : List LogRec
deriving DecidableEq, Repr

/-- One `supabase.from(tbl).insert(rec)`: on `.ok` the row is appended; on
`.errObj` the promise resolves but the response carries an error and no row
is written; on `.throws` the `await` raises. -/
def dbInsert (b : DbCall) (tbl : List LogRec) (rec : LogRec) :
    Except Unit (List LogRec × Bool) :=
  match b with
  | .ok => .ok (tbl ++ [rec], false)
  | .errObj => .ok (tbl, true)
  | .throws => .error ()

/-- The body of `logAuthAttempt` (inside its `try`): insert into
`auth_logs` (an `error` in the response is only `console.error`-ed), then
insert into `authentication_logs` (response ignored). `.error` = an
exception escaped the body, carrying the audit state written so far. -/
def logAuthAttemptBody (db : AuditDb) (b1 b2 : DbCall) (rec : LogRec) :
    Except AuditDb AuditDb :=
  match dbInsert b1 db.authLogs rec with
  | .error _ => .error db
  | .ok (l1, _hadErrObj) =>
    let db1 := { db with authLogs := l1 }
    match dbInsert b2 db1.authenticationLogs rec with
    | .error _ => .error db1
    | .ok (l2, _) => .ok { db1 with authenticationLogs := l2 }

/-- `logAuthAttempt` from `useAuthMethods.ts`: the body wrapped in
`try { ... } catch (error) { console.error(...) }` — a thrown insert is
caught and the call resolves normally, so the caller never sees an error. -/
def logAuthAttempt (db : AuditDb) (b1 b2 : DbCall) (rec : LogRec) :
    Except Unit AuditDb :=
  match logAuthAttemptBody db b1 b2 rec with
  | .ok db' => .ok db'
  | .error db' => .ok db'

/-! ## `updateMethodStatus`: keyed upsert into `authentication_methods`

The table has `UNIQUE(user_id, method_type)` and the hook upserts with
`onConflict: 'user_id,method_type'`, so a conflicting row is updated in
place and a fresh key is appended. -/

/-- One `authentication_methods` row. -/
structure MethodRecord where
  user_id : String
  method_type : AuthStep
  is_enrolled : Bool
  enrolled_at : Option Nat
deriving DecidableEq, Repr

/-- Postgres upsert with `ON CONFLICT (user_id, method_type) DO UPDATE`:
replace the row with the conflicting key, else append. -/
def upsertMethod (tbl : List MethodRecord) (r : MethodRecord) : List MethodRecord :=
  if tbl.any (fun x => x.user_id = r.user_id ∧ x.method_type = r.method_type) then
    tbl.map (fun x =>
      if x.user_id = r.user_id ∧ x.method_type = r.method_type then r else x)
  else
    tbl ++ [r]

/-- The live records for one `(user_id, modality)` pair — what any read
(e.g. a verification consulting enrollment data) sees for that key. -/
def liveRecords (tbl : List MethodRecord) (uid : String) (m : AuthStep) : List MethodRecord :=
  tbl.filter (fun x => x.user_id = uid ∧ x.method_type = m)

/-- The `UNIQUE(user_id, method_type)` table invariant: no two rows share a key. -/
def UniqueKeys (tbl : List MethodRecord) : Prop :=
  tbl.Pairwise (fun a b => ¬(a.user_id = b.user_id ∧ a.method_type = b.method_type))

/-! ## The `pins` table (`UNIQUE(user_id)`, upsert `onConflict: 'user_id'`) -/

/-- Upsert a `(user_id, pin_hash)` row, `onConflict: 'user_id'`. -/
def pinsUpsert (store : List (String × String)) (uid h : String) : List (String × String) :=
  if store.any (fun x => x.1 = uid) then
    store.map (fun x => if x.1 = uid then (uid, h) else x)
  else
    store ++ [(uid, h)]

/-- `supabase.from('pins').select('pin_hash').eq('user_id', uid).maybeSingle()`:
the stored hash, or `none` when no row exists (not an error). -/
def pinsLookup (store : List (String × String)) (uid : String) : Option String :=
  (store.find? (fun x => x.1 = uid)).map (fun x => x.2)

/-! ## The PIN component (`PinAuth.tsx`) -/

/-- `useState<'enter' | 'confirm'>('enter')`. -/
inductive PinStep
  | enter
  | confirm
deriving DecidableEq, Repr

/-- The component mode prop: `mode: 'enroll' | 'verify'`. -/
inductive PinMode
  | enroll
  | verify
deriving DecidableEq, Repr

/-- The PIN component's React state: `pin`, `confirmPin`, `step`
(named `pinStep` here to avoid clashing with the page-level notion),
and the in-component attempt counter. -/
structure PinCompState where
  pin : String
  confirmPin : String
  pinStep : PinStep
  attempts : Nat
deriving DecidableEq, Repr

/-- Initial component state: empty fields, `enter` step, zero attempts. -/
def initPinComp : PinCompState :=
  { pin := "", confirmPin := "", pinStep := .enter, attempts := 0 }

/-- `const maxAttempts = 3`. -/
def maxAttempts : Nat := 3

/-- `const currentPin = step === 'enter' ? pin : confirmPin`. -/
def currentPin (st : PinCompState) : String :=
  if st.pinStep = .enter then st.pin else st.confirmPin

/-- `handleNumberPress`: append the pressed digit to the active field only
while it holds fewer than 6 characters; presses beyond the 6th do nothing. -/
def handleNumberPress (st : PinCompState) (d : Char) : PinCompState :=
  if st.pinStep = .enter ∧ st.pin.length < 6 then
    { st with pin := st.pin.push d }
  else if st.pinStep = .confirm ∧ st.confirmPin.length < 6 then
    { st with confirmPin := st.confirmPin.push d }
  else
    st

/-- `handleDelete`: `prev.slice(0, -1)` on the active field. -/
def handleDelete (st : PinCompState) : PinCompState :=
  if st.pinStep = .enter then
    { st with pin := String.mk st.pin.data.dropLast }
  else
    { st with confirmPin := String.mk st.confirmPin.data.dropLast }

/-- `handleClear`: reset the active field to the empty string. -/
def handleClear (st : PinCompState) : PinCompState :=
  if st.pinStep = .enter then { st with pin := "" } else { st with confirmPin := "" }

/-- Behavior of the database calls a single `processPinAuth` run can make. -/
structure PinWorld where
  selectCall : DbCall
  upsertCall : DbCall
  logCall1 : DbCall
  logCall2 : DbCall
deriving DecidableEq, Repr

/-- Everything observable about one `processPinAuth` run: the new component
state, `pins` table, audit tables, whether `updateMethodStatus('pin', true)`
ran, the argument `onComplete` was called with (if it was called),
whether `onClose()` ran, and whether the `catch` branch ran. -/
structure PinAuthResult where
  state : PinCompState
  pins : List (String × String)
  audit : AuditDb
  methodUpdateCalled : Bool
  completeArg : Option Bool
  closeCalled : Bool
  caughtError : Bool
deriving DecidableEq, Repr

/-- A run that returns early: nothing but the component state changes. -/
def pinNoEffect (st : PinCompState) (store : List (String × String)) (audit : AuditDb) :
    PinAuthResult :=
  { state := st, pins := store, audit := audit, methodUpdateCalled := false
    completeArg := none, closeCalled := false, caughtError := false }

/-- `processPinAuth` from `PinAuth.tsx`, both modes, faithful to the source:

* enroll/`enter`: fewer than 4 digits → toast and return; else move to the
  `confirm` step;
* enroll/`confirm`: mismatching PINs → toast, reset both fields, back to
  `enter`; matching → hash, upsert into `pins` (a response error is thrown),
  `updateMethodStatus('pin', true)`, `logAuthAttempt('pin', true)`,
  `onComplete(true)`; any exception → catch, `onComplete(false)`;
* verify: fewer than 4 digits → toast and return; else hash, select the
  stored hash (`maybeSingle`; a response error is thrown), compare
  (`data?.pin_hash === pinHash` — `false` when no row), log the attempt,
  then `onComplete(true)` on success, else increment `attempts`, on the
  3rd failure call `onClose()`, otherwise clear `pin`; either way
  `onComplete(false)`; any exception → catch, `onComplete(false)`. -/
def processPinAuth (mode : PinMode) (uid : String) (st : PinCompState)
    (store : List (String × String)) (audit : AuditDb) (w : PinWorld) : PinAuthResult :=
  match mode with
  | .enroll =>
    if st.pinStep = .enter then
      if st.pin.length < 4 then
        pinNoEffect st store audit
      else
        pinNoEffect { st with pinStep := .confirm } store audit
    else
      if st.pin ≠ st.confirmPin then
        pinNoEffect { st with confirmPin := "", pin := "", pinStep := .enter } store audit
      else
        let pinHash := hashPin st.pin
        match w.upsertCall with
        | .errObj =>
          { pinNoEffect st store audit with completeArg := some false, caughtError := true }
        | .throws =>
          { pinNoEffect st store audit with completeArg := some false, caughtError := true }
        | .ok =>
          let store1 := pinsUpsert store uid pinHash
          match logAuthAttempt audit w.logCall1 w.logCall2
              { user_id := uid, method_type := .pin, success := true
                confidence_score := none, metadata := none } with
          | .ok audit1 =>
            { state := st, pins := store1, audit := audit1, methodUpdateCalled := true
              completeArg := some true, closeCalled := false, caughtError := false }
          | .error _ =>
            { state := st, pins := store1, audit := audit, methodUpdateCalled := true
              completeArg := some false, closeCalled := false, caughtError := true }
  | .verify =>
    if st.pin.length < 4 then
      pinNoEffect st store audit
    else
      let pinHash := hashPin st.pin
      match w.selectCall with
      | .errObj =>
        { pinNoEffect st store audit with completeArg := some false, caughtError := true }
      | .throws =>
        { pinNoEffect st store audit with completeArg := some false, caughtError := true }
      | .ok =>
        let data := pinsLookup store uid
        let success := data = some pinHash
        match logAuthAttempt audit w.logCall1 w.logCall2
            { user_id := uid, method_type := .pin, success := success
              confidence_score := none, metadata := none } with
        | .error _ =>
          { pinNoEffect st store audit with completeArg := some false, caughtError := true }
        | .ok audit1 =>
          if success then
            { state := st, pins := store, audit := audit1, methodUpdateCalled := false
              completeArg := some true, closeCalled := false, caughtError := false }
          else
            let newAttempts := st.attempts + 1
            if maxAttempts ≤ newAttempts then
              { state := { st with attempts := newAttempts }, pins := store, audit := audit1
                methodUpdateCalled := false, completeArg := some false
                closeCalled := true, caughtError := false }
            else
              { state := { st with attempts := newAttempts, pin := "" }, pins := store
                audit := audit1, methodUpdateCalled := false, completeArg := some false
                closeCalled := false, caughtError := false }

/-- User-interface events on the PIN dialog: keypad press, delete, clear,
and pressing the submit button (which runs `processPinAuth` against a
database whose calls behave as `w` says). -/
inductive PinEvent
  | press (d : Char)
  | del
  | clear
  | submit (w : PinWorld)

/-- The PIN dialog together with the stores it touches and the calls it
made to its parent. -/
structure PinSystem where
  comp : PinCompState
  pins : List (String × String)
  audit : AuditDb
  completes : List Bool
  closes : Nat
deriving DecidableEq, Repr

/-- Apply one UI event to the PIN dialog system. -/
def runPinEvent (mode : PinMode) (uid : String) (sys : PinSystem) : PinEvent → PinSystem
  | .press d => { sys with comp := handleNumberPress sys.comp d }
  | .del => { sys with comp := handleDelete sys.comp }
  | .clear => { sys with comp := handleClear sys.comp }
  | .submit w =>
    let r := processPinAuth mode uid sys.comp sys.pins sys.audit w
    { comp := r.state, pins := r.pins, audit := r.audit
      completes := sys.completes ++ (r.completeArg.map (fun b => [b])).getD []
      closes := sys.closes + (if r.closeCalled then 1 else 0) }

/-- Run a sequence of UI events from a given starting system. -/
def runPinEvents (mode : PinMode) (uid : String) (sys : PinSystem)
    (evs : List PinEvent) : PinSystem :=
  evs.foldl (runPinEvent mode uid) sys

/-- A freshly opened PIN dialog over the given stores. -/
def initPinSystem (store : List (String × String)) (audit : AuditDb) : PinSystem :=
  { comp := initPinComp, pins := store, audit := audit, completes := [], closes := 0 }

/-! ## Voice and face coordinators (`VoiceAuth.tsx`, `FaceAuth` in
`GestureAuth.tsx`)

`enrollVoice`/`enrollFace` resolve to a boolean (they catch their own
network errors and return `false`); `verifyVoice`/`verifyFace` resolve to an
`EmbeddingResponse`. -/

/-- The fields of an `EmbeddingResponse` the components read. The source
field named `match` is called `matched` here (`match` is reserved in Lean). -/
structure ApiVerifyResult where
  success : Bool
  matched : Option Bool
  confidence : Option ℚ
deriving DecidableEq, Repr

/-- The component mode: `'enroll' | 'verify'`. -/
inductive AuthMode
  | enroll
  | verify
deriving DecidableEq, Repr

/-- Observables of one `processVoiceAuth` / `processFaceAuth` run. -/
structure CoordResult where
  audit : AuditDb
  methodUpdateCalled : Bool
  completeArg : Option Bool
deriving DecidableEq, Repr

/-- `processVoiceAuth` from `VoiceAuth.tsx`: `success` and `confidence`
start at `false` / `0`; enroll mode takes `success` from `enrollVoice` and,
when enrolled, calls `updateMethodStatus('voice', true)`; verify mode takes
`success = result.success && (result.match ?? false)` and
`confidence = result.confidence ?? 0`. Either way it then calls
`logAuthAttempt('voice', success, confidence)` and `onComplete(success)`. -/
def processVoiceAuth (mode : AuthMode) (uid : String) (enrollResult : Bool)
    (verifyResult : ApiVerifyResult) (audit : AuditDb) (b1 b2 : DbCall) : CoordResult :=
  let success := match mode with
    | .enroll => enrollResult
    | .verify => verifyResult.success && (verifyResult.matched.getD false)
  let confidence : ℚ := match mode with
    | .enroll => 0
    | .verify => verifyResult.confidence.getD 0
  let audit1 := match logAuthAttempt audit b1 b2
      { user_id := uid, method_type := .voice, success := success
        confidence_score := some confidence, metadata := none } with
    | .ok db => db
    | .error _ => audit
  { audit := audit1
    methodUpdateCalled := (mode = .enroll ∧ success = true : Bool)
    completeArg := some success }

/-- `processFaceAuth` from the `FaceAuth` component bundled in
`GestureAuth.tsx`: identical shape to `processVoiceAuth` but for the
`face` modality, guarded by `capturedImages.length === 0` (in which case it
only toasts and returns). -/
def processFaceAuth (mode : AuthMode) (uid : String) (imagesCount : Nat)
    (enrollResult : Bool) (verifyResult : ApiVerifyResult) (audit : AuditDb)
    (b1 b2 : DbCall) : CoordResult :=
  if imagesCount = 0 then
    { audit := audit, methodUpdateCalled := false, completeArg := none }
  else
    let success := match mode with
      | .enroll => enrollResult
      | .verify => verifyResult.success && (verifyResult.matched.getD false)
    let confidence : ℚ := match mode with
      | .enroll => 0
      | .verify => verifyResult.confidence.getD 0
    let audit1 := match logAuthAttempt audit b1 b2
        { user_id := uid, method_type := .face, success := success
          confidence_score := some confidence, metadata := none } with
      | .ok db => db
      | .error _ => audit
    { audit := audit1
      methodUpdateCalled := (mode = .enroll ∧ success = true : Bool)
      completeArg := some success }

/-! ## The enrollment gate on the Authenticate page -/

/-- `['face', 'voice', 'gesture', 'pin'].filter(m => isMethodEnrolled(m))`. -/
def enrolledMethods (isEnrolled : AuthStep → Bool) : List AuthStep :=
  steps.filter isEnrolled

/-- What the Authenticate page renders: with fewer than 3 enrolled methods,
only the "Enrollment Required" card (which shows the enrolled count and has
no way to start a sequence); otherwise the authentication panel whose
button calls `startAuthentication`. -/
inductive AuthView
  | enrollmentRequired (enrolledCount : Nat)
  | authPanel
deriving DecidableEq, Repr

/-- `if (enrolledMethods.length < 3) { ... return <Enrollment Required/> }`. -/
def authenticateView (isEnrolled : AuthStep → Bool) : AuthView :=
  if (enrolledMethods isEnrolled).length < 3 then
    .enrollmentRequired (enrolledMethods isEnrolled).length
  else
    .authPanel

/-! ## Matching-service threshold decision

Modelled from the spec: the Python matching backend
(`backend/services/face_service.py`, `backend/services/voice_service.py`)
is not part of the frontend source tree; per the spec, verification filters
the top-`k` search candidates to the claimed identity, reports `NotEnrolled`
when none remains, and otherwise compares the candidate's cosine-similarity
score against the modality's fixed threshold, inclusively: score ≥ threshold
is a `Match` with confidence equal to the score, score < threshold a
`NoMatch` with that confidence. -/

/-- Modelled from the spec: the tagged verification outcome
`Match | NoMatch | NotEnrolled`. -/
inductive VerifyOutcome
  | Match (confidence : ℚ)
  | NoMatch (confidence : ℚ)
  | NotEnrolled
deriving DecidableEq, Repr

/-- Modelled from the spec: the fixed face threshold (0.75). -/
def faceThreshold : ℚ := 75 / 100

/-- Modelled from the spec: the fixed voice threshold (0.70). -/
def voiceThreshold : ℚ := 70 / 100

/-- Modelled from the spec: the post-search decision of
`MatchingService.verify` — candidates are `(user_id, similarity)` pairs in
descending score order; keep those of the claimed user, then apply the
inclusive threshold comparison to the best one. -/
def verifyDecision (threshold : ℚ) (uid : String)
    (candidates : List (String × ℚ)) : VerifyOutcome :=
  match candidates.find? (fun c => c.1 = uid) with
  | none => .NotEnrolled
  | some c => if threshold ≤ c.2 then .Match c.2 else .NoMatch c.2

/-! ## Shared example inputs -/

/-- An example user id. -/
def u1 : String := "user-1"

/-- A second example user id. -/
def u2 : String := "user-2"

/-- An example enrolled PIN. -/
def pinGood : String := "1234"

/-- An example wrong PIN of valid length. -/
def pinBad : String := "9999"

/-- A database whose every call succeeds. -/
def allOk : PinWorld := { selectCall := .ok, upsertCall := .ok, logCall1 := .ok, logCall2 := .ok }

/-- An empty audit database. -/
def emptyAudit : AuditDb := { authLogs := [], authenticationLogs := [] }

/-- Per-step outcomes where only the voice verification fails. -/
def voiceFailOutcomes : AuthStep → Bool := fun s => decide (s ≠ AuthStep.voice)

/-! # Theorems -/

/-- C1: in every authentication sequence, steps run in the fixed order
face, voice, gesture, code; when step `k` is the first whose verification
outcome is not a match, the trace of coordinator invocations is exactly the
steps through `k` (so `k` is invoked once, never retried), the sequence's
result is `Failed`, exactly one attempt with `success = false` is recorded —
the one for `k` — and no step after `k` is ever invoked. -/
theorem fail_fast_sequencing (outcomes : AuthStep → Bool) (k : AuthStep)
    (hk : outcomes k = false)
    (hbefore : ∀ j, stepIndex j < stepIndex k → outcomes j = true) :
    (runAuth outcomes).2 = (steps.take (stepIndex k + 1)).map (fun s => (s, outcomes s)) ∧
    (runAuth outcomes).1.result = .failed k ∧
    (runAuth outcomes).2.filter (fun p => p.2 = false) = [(k, false)] ∧
    (∀ j b, stepIndex k < stepIndex j → (j, b) ∉ (runAuth outcomes).2) := by
  have hface := fun h => hbefore .face h
  have hvoice := fun h => hbefore .voice h
  have hgest := fun h => hbefore .gesture h
  cases k <;>
    [skip;
     (have hf : outcomes .face = true := hface (by decide));
     (have hf : outcomes .face = true := hface (by decide);
      have hv : outcomes .voice = true := hvoice (by decide));
     (have hf : outcomes .face = true := hface (by decide);
      have hv : outcomes .voice = true := hvoice (by decide);
      have hg : outcomes .gesture = true := hgest (by decide))] <;>
  · refine ⟨?_, ?_, ?_, ?_⟩
    case refine_4 =>
      intro j b h
      cases j <;>
        simp_all [runAuth, runAuthFrom, handleStepComplete, startState, setStatus, steps, stepIndex]
    all_goals
      simp_all [runAuth, runAuthFrom, handleStepComplete, startState, setStatus, steps, stepIndex]

/-- C1 witness: with outcomes where only voice fails, the sequence invokes
face then voice, fails at voice, and records that single failed attempt. -/
theorem fail_fast_sequencing_witness :
    voiceFailOutcomes AuthStep.voice = false ∧
    (runAuth voiceFailOutcomes).1.result = .failed AuthStep.voice ∧
    (runAuth voiceFailOutcomes).2 = [(AuthStep.face, true), (AuthStep.voice, false)] ∧
    (runAuth voiceFailOutcomes).2.filter (fun p => p.2 = false) = [(AuthStep.voice, false)] := by
  have hb : ∀ j, stepIndex j < stepIndex AuthStep.voice → voiceFailOutcomes j = true := by
    intro j hj
    cases j
    · rfl
    · exact absurd hj (by decide)
    · exact absurd hj (by decide)
    · exact absurd hj (by decide)
  have h := fail_fast_sequencing voiceFailOutcomes .voice (by decide) hb
  refine ⟨by decide, h.2.1, ?_, h.2.2.1⟩
  have h1 := h.1
  simpa [steps, stepIndex, voiceFailOutcomes] using h1

/-- C3: when a candidate for the claimed user is found among the search
results, the decision compares its cosine-similarity score against the
modality's fixed threshold (0.75 for face, 0.70 for voice) inclusively:
the outcome is `Match` with confidence equal to the score exactly when
score ≥ threshold, `NoMatch` with that confidence exactly when
score < threshold, and a score equal to the threshold is a `Match`. -/
theorem threshold_decision_inclusive (th s : ℚ) (uid other : String)
    (cands : List (String × ℚ))
    (_hth : th = faceThreshold ∨ th = voiceThreshold)
    (hfind : cands.find? (fun c => c.1 = uid) = some (other, s)) :
    (verifyDecision th uid cands = .Match s ↔ th ≤ s) ∧
    (verifyDecision th uid cands = .NoMatch s ↔ s < th) ∧
    (s = th → verifyDecision th uid cands = .Match s) := by
  unfold verifyDecision
  rw [hfind]
  constructor
  · constructor
    · intro h
      by_contra hns
      simp [hns] at h
    · intro h
      simp [h]
  constructor
  · constructor
    · intro h
      by_contra hns
      simp [not_lt.mp hns] at h
    · intro h
      simp [not_le.mpr h]
  · intro h
    subst h
    simp

/-- C3 witness: a face-modality score exactly at the 0.75 threshold is a
`Match` with that confidence, and the two characterizations hold there. -/
theorem threshold_decision_inclusive_witness :
    ([(u1, faceThreshold)].find? (fun c => c.1 = u1) = some (u1, faceThreshold)) ∧
    verifyDecision faceThreshold u1 [(u1, faceThreshold)] = .Match faceThreshold := by
  have h := threshold_decision_inclusive faceThreshold faceThreshold u1 u1
    [(u1, faceThreshold)] (Or.inl rfl) (by simp)
  exact ⟨by simp, h.2.2 rfl⟩

/-- C4 counterexample: on a successful voice enrollment (the enrollment API
returned `true`) the component records the attempt with
`confidence_score = 0`, not `1.0` — the claim's `confidence = 1.0` is false
on this input. -/
theorem enrollment_confidence_counterexample :
    (processVoiceAuth .enroll u1 true { success := true, matched := none, confidence := none }
        emptyAudit .ok .ok).audit.authLogs =
      [{ user_id := u1, method_type := .voice, success := true
         confidence_score := some 0, metadata := none }] ∧
    ¬ ((0 : ℚ) = 1) := by
  constructor
  · rfl
  · decide

/-- C4 amended: for every enrollment through the voice or face component
whose API call resolves to `b`, exactly one `AuthAttempt` is recorded with
`success = b` and `confidence_score = 0` (never `1.0`), with empty metadata
(no failure reason is attached); `updateMethodStatus` runs exactly on
success and `onComplete` receives `b`. -/
theorem enrollment_logging_amended (uid : String) (b : Bool) (vr : ApiVerifyResult)
    (db : AuditDb) (n : Nat) :
    (processVoiceAuth .enroll uid b vr db .ok .ok).audit.authLogs =
      db.authLogs ++ [{ user_id := uid, method_type := .voice, success := b
                        confidence_score := some 0, metadata := none }] ∧
    (processVoiceAuth .enroll uid b vr db .ok .ok).methodUpdateCalled = b ∧
    (processVoiceAuth .enroll uid b vr db .ok .ok).completeArg = some b ∧
    (processFaceAuth .enroll uid (n + 1) b vr db .ok .ok).audit.authLogs =
      db.authLogs ++ [{ user_id := uid, method_type := .face, success := b
                        confidence_score := some 0, metadata := none }] ∧
    (processFaceAuth .enroll uid (n + 1) b vr db .ok .ok).completeArg = some b := by
  cases b <;>
    simp [processVoiceAuth, processFaceAuth, logAuthAttempt, logAuthAttemptBody, dbInsert]

/-- C5: the Authenticate page starts a sequence only from its
authentication panel, which is rendered exactly when at least 3 of the 4
methods are enrolled; with fewer than 3 the page instead renders the
"Enrollment Required" card reporting the enrolled count, and no sequence
can start. -/
theorem authentication_requires_three_enrollments (isEnrolled : AuthStep → Bool) :
    (authenticateView isEnrolled = .authPanel ↔
      3 ≤ (enrolledMethods isEnrolled).length) ∧
    ((enrolledMethods isEnrolled).length < 3 →
      authenticateView isEnrolled = .enrollmentRequired (enrolledMethods isEnrolled).length) := by
  constructor
  · unfold authenticateView
    split <;> rename_i h
    · simp only [reduceCtorEq, false_iff, not_le]
      exact h
    · simpa using not_lt.mp h
  · intro hc
    unfold authenticateView
    simp [hc]

/-- C5 witness: with only face and pin enrolled (2 of 4), the page renders
the insufficient-enrollment card and not the authentication panel. -/
theorem authentication_requires_three_enrollments_witness :
    (enrolledMethods (fun s => decide (s = .face ∨ s = .pin))).length < 3 ∧
    authenticateView (fun s => decide (s = .face ∨ s = .pin)) =
      .enrollmentRequired (enrolledMethods (fun s => decide (s = .face ∨ s = .pin))).length ∧
    ¬ authenticateView (fun s => decide (s = .face ∨ s = .pin)) = .authPanel := by
  have h := authentication_requires_three_enrollments (fun s => decide (s = .face ∨ s = .pin))
  refine ⟨by decide, h.2 (by decide), ?_⟩
  intro hp
  exact absurd (h.1.mp hp) (by decide)

/-- An upserted PIN row is what a later lookup of that user returns. -/
theorem pinsLookup_pinsUpsert (store : List (String × String)) (uid h : String) :
    pinsLookup (pinsUpsert store uid h) uid = some h := by
  unfold pinsUpsert pinsLookup
  split <;> rename_i hany
  · induction store with
    | nil => simp at hany
    | cons x xs ih =>
      simp only [List.map_cons]
      by_cases hx : x.1 = uid
      · simp [hx]
      · simp only [List.any_cons, Bool.or_eq_true, decide_eq_true_eq] at hany
        rcases hany with hany | hany
        · exact absurd hany hx
        · simpa [hx] using ih (by simpa using hany)
  · induction store with
    | nil => simp
    | cons x xs ih =>
      simp only [List.any_cons, Bool.or_eq_true, decide_eq_true_eq, not_or] at hany
      simp only [List.cons_append, List.find?, decide_eq_false hany.1]
      exact ih (by simpa using hany.2)

set_option maxRecDepth 100000 in
set_option maxHeartbeats 1000000 in
/-- C2 (evidence of the divergence): after face, voice and gesture all
match, the page is at the code step with the PIN dialog open; the user's
first wrong code submission (stored hash is `hashPin "1234"`, submitted
code `"9999"`) leaves the component counter at 1 of 3 (`onClose` is not
called and the field is cleared for the promised in-step retry), yet the
component reports `onComplete(false)`, and `handleStepComplete('pin', false)`
closes the modal and puts the sequence in the failed terminal state — the
sequence does not stay in the code step, no second submission can occur in
it, and no `LockedOut`-distinct state is ever reached. -/
theorem pin_first_wrong_submission_ends_sequence :
    (runAuthFrom (fun _ => true) 3 startState []).1.currentStep = AuthStep.pin ∧
    (runAuthFrom (fun _ => true) 3 startState []).1.showModal = true ∧
    (processPinAuth .verify u1 { initPinComp with pin := pinBad }
        (pinsUpsert [] u1 (hashPin pinGood)) emptyAudit allOk).completeArg = some false ∧
    (processPinAuth .verify u1 { initPinComp with pin := pinBad }
        (pinsUpsert [] u1 (hashPin pinGood)) emptyAudit allOk).state.attempts = 1 ∧
    (processPinAuth .verify u1 { initPinComp with pin := pinBad }
        (pinsUpsert [] u1 (hashPin pinGood)) emptyAudit allOk).closeCalled = false ∧
    (processPinAuth .verify u1 { initPinComp with pin := pinBad }
        (pinsUpsert [] u1 (hashPin pinGood)) emptyAudit allOk).state.pin = "" ∧
    (handleStepComplete (runAuthFrom (fun _ => true) 3 startState []).1
        AuthStep.pin false).result = .failed AuthStep.pin ∧
    (handleStepComplete (runAuthFrom (fun _ => true) 3 startState []).1
        AuthStep.pin false).showModal = false ∧
    (handleStepComplete (runAuthFrom (fun _ => true) 3 startState []).1
        AuthStep.pin false).isAuthenticating = false := by
  refine ⟨rfl, rfl, ?_, ?_, ?_, ?_, rfl, rfl, rfl⟩ <;> decide


/-- C7: the code-set operation stores exactly the SHA-256 hex digest of the
confirmed code — the `pins` table receives `sha256HexOfString c`, never the
raw code — and a code verification reports success precisely when the
digest of the submitted code equals the hash stored for that user. -/
theorem code_hash_storage_and_verify (uid c c2 : String) (st st2 : PinCompState)
    (store : List (String × String)) (audit : AuditDb)
    (h1 : st.pinStep = .confirm) (h2 : st.pin = c) (h3 : st.confirmPin = c)
    (h4 : st2.pin = c2) (h5 : 4 ≤ c2.length) :
    (processPinAuth .enroll uid st store audit allOk).pins =
      pinsUpsert store uid (sha256HexOfString c) ∧
    pinsLookup (pinsUpsert store uid (sha256HexOfString c)) uid =
      some (sha256HexOfString c) ∧
    ((processPinAuth .verify uid st2 store audit allOk).completeArg = some true ↔
      pinsLookup store uid = some (sha256HexOfString c2)) := by
  refine ⟨?_, pinsLookup_pinsUpsert store uid _, ?_⟩
  · simp [processPinAuth, h1, h2, h3, allOk, hashPin, logAuthAttempt, logAuthAttemptBody, dbInsert]
  · subst h4
    have hlen : ¬ st2.pin.length < 4 := by omega
    unfold processPinAuth
    simp only [hlen, if_false, allOk, logAuthAttempt, logAuthAttemptBody, dbInsert]
    by_cases hs : pinsLookup store uid = some (hashPin st2.pin)
    · simp [hs, hashPin]
    · have hs' : ¬ pinsLookup store uid = some (sha256HexOfString st2.pin) := hs
      simp only [hs, hashPin, iff_false] at hs' ⊢
      rw [if_neg (by simpa [hashPin] using hs)]
      constructor
      · intro hc
        split at hc <;> simp at hc
      · intro hc
        exact absurd hc hs'

/-- C7 witness: enrolling the code `"1234"` stores its SHA-256 digest, and
verifying `"1234"` against a store holding exactly that digest succeeds. -/
theorem code_hash_storage_and_verify_witness :
    ({ pin := pinGood, confirmPin := pinGood, pinStep := .confirm, attempts := 0 } :
        PinCompState).pinStep = PinStep.confirm ∧
    4 ≤ pinGood.length ∧
    (processPinAuth .enroll u1
        { pin := pinGood, confirmPin := pinGood, pinStep := .confirm, attempts := 0 }
        [] emptyAudit allOk).pins = pinsUpsert [] u1 (sha256HexOfString pinGood) ∧
    ((processPinAuth .verify u1
        { pin := pinGood, confirmPin := "", pinStep := .enter, attempts := 0 }
        (pinsUpsert [] u1 (sha256HexOfString pinGood)) emptyAudit allOk).completeArg =
      some true) := by
  have h := code_hash_storage_and_verify u1 pinGood pinGood
    { pin := pinGood, confirmPin := pinGood, pinStep := .confirm, attempts := 0 }
    { pin := pinGood, confirmPin := "", pinStep := .enter, attempts := 0 }
    (pinsUpsert [] u1 (sha256HexOfString pinGood)) emptyAudit rfl rfl rfl rfl (by decide)
  exact ⟨rfl, by decide, by simpa using h.1, h.2.2.mpr (pinsLookup_pinsUpsert _ _ _)⟩

/-- C8: when no code credential is stored for the user, a code submission of
valid length yields an ordinary failed outcome — `onComplete(false)` with no
exception caught, the `pins` store untouched — and the failed attempt is
still appended to both audit tables. -/
theorem missing_code_credential (uid : String) (st : PinCompState)
    (store : List (String × String)) (audit : AuditDb)
    (h1 : 4 ≤ st.pin.length) (h2 : pinsLookup store uid = none) :
    (processPinAuth .verify uid st store audit allOk).completeArg = some false ∧
    (processPinAuth .verify uid st store audit allOk).caughtError = false ∧
    (processPinAuth .verify uid st store audit allOk).pins = store ∧
    (processPinAuth .verify uid st store audit allOk).audit.authLogs =
      audit.authLogs ++ [{ user_id := uid, method_type := .pin, success := false
                           confidence_score := none, metadata := none }] ∧
    (processPinAuth .verify uid st store audit allOk).audit.authenticationLogs =
      audit.authenticationLogs ++ [{ user_id := uid, method_type := .pin, success := false
                                     confidence_score := none, metadata := none }] := by
  have hlen : ¬ st.pin.length < 4 := by omega
  unfold processPinAuth
  simp only [hlen, if_false, allOk, logAuthAttempt, logAuthAttemptBody, dbInsert, h2]
  rw [if_neg (by simp)]
  split <;> exact ⟨rfl, rfl, rfl, rfl, rfl⟩

/-- C8 witness: an empty `pins` store, user `u1`, submission `"1234"`. -/
theorem missing_code_credential_witness :
    4 ≤ pinGood.length ∧
    pinsLookup [] u1 = none ∧
    (processPinAuth .verify u1
        { pin := pinGood, confirmPin := "", pinStep := .enter, attempts := 0 }
        [] emptyAudit allOk).completeArg = some false ∧
    (processPinAuth .verify u1
        { pin := pinGood, confirmPin := "", pinStep := .enter, attempts := 0 }
        [] emptyAudit allOk).audit.authLogs =
      [{ user_id := u1, method_type := .pin, success := false
         confidence_score := none, metadata := none }] := by
  have h := missing_code_credential u1
    { pin := pinGood, confirmPin := "", pinStep := .enter, attempts := 0 }
    [] emptyAudit (by decide) rfl
  exact ⟨by decide, rfl, h.1, by simpa [emptyAudit] using h.2.2.2.1⟩

/-- Replacing upsert keeps exactly one live record for the upserted key. -/
theorem filter_upsertMap_key (r : MethodRecord) (tbl : List MethodRecord)
    (h : UniqueKeys tbl)
    (hex : ∃ x ∈ tbl, x.user_id = r.user_id ∧ x.method_type = r.method_type) :
    (tbl.map (fun x =>
        if x.user_id = r.user_id ∧ x.method_type = r.method_type then r else x)).filter
      (fun x => x.user_id = r.user_id ∧ x.method_type = r.method_type) = [r] := by
  induction tbl with
  | nil => simp at hex
  | cons x xs ih =>
    unfold UniqueKeys at h
    rw [List.pairwise_cons] at h
    by_cases hpx : x.user_id = r.user_id ∧ x.method_type = r.method_type
    · simp only [List.map_cons, if_pos hpx, List.filter_cons]
      rw [if_pos (by simp)]
      have hrest : (xs.map (fun y =>
          if y.user_id = r.user_id ∧ y.method_type = r.method_type then r else y)).filter
          (fun y => (y.user_id = r.user_id ∧ y.method_type = r.method_type : Bool)) = [] := by
        rw [List.filter_eq_nil_iff]
        intro z hz
        rw [List.mem_map] at hz
        obtain ⟨y, hy, rfl⟩ := hz
        have hny : ¬(y.user_id = r.user_id ∧ y.method_type = r.method_type) := by
          intro hc
          exact h.1 y hy ⟨hpx.1.trans hc.1.symm, hpx.2.trans hc.2.symm⟩
        rw [if_neg hny]
        simpa using hny
      rw [hrest]
    · obtain ⟨x0, hx0mem, hx0⟩ := hex
      rcases List.mem_cons.mp hx0mem with rfl | hx0xs
      · exact absurd hx0 hpx
      · simp only [List.map_cons, if_neg hpx, List.filter_cons]
        rw [if_neg (by simpa using hpx)]
        exact ih h.2 ⟨x0, hx0xs, hx0⟩

/-- Replacing upsert leaves the live records of every other key unchanged. -/
theorem filter_upsertMap_other (r : MethodRecord) (uid : String) (m : AuthStep)
    (hne : ¬(uid = r.user_id ∧ m = r.method_type)) (tbl : List MethodRecord) :
    (tbl.map (fun x =>
        if x.user_id = r.user_id ∧ x.method_type = r.method_type then r else x)).filter
      (fun x => x.user_id = uid ∧ x.method_type = m) =
    tbl.filter (fun x => x.user_id = uid ∧ x.method_type = m) := by
  induction tbl with
  | nil => rfl
  | cons x xs ih =>
    by_cases hpx : x.user_id = r.user_id ∧ x.method_type = r.method_type
    · have hqr : ¬(r.user_id = uid ∧ r.method_type = m) := by
        intro hc
        exact hne ⟨hc.1.symm, hc.2.symm⟩
      have hqx : ¬(x.user_id = uid ∧ x.method_type = m) := by
        intro hc
        exact hne ⟨hc.1.symm.trans hpx.1, hc.2.symm.trans hpx.2⟩
      simp only [List.map_cons, if_pos hpx, List.filter_cons]
      rw [if_neg (by simpa using hqr), if_neg (by simpa using hqx)]
      exact ih
    · simp only [List.map_cons, if_neg hpx, List.filter_cons]
      by_cases hqx : x.user_id = uid ∧ x.method_type = m
      · rw [if_pos (by simpa using hqx), if_pos (by simpa using hqx), ih]
      · rw [if_neg (by simpa using hqx), if_neg (by simpa using hqx)]
        exact ih

/-- C6: on a table satisfying the `UNIQUE(user_id, method_type)` invariant,
the enrollment upsert preserves the invariant, leaves exactly one live
record for the upserted `(user_id, modality)` pair — the new one, so any
later read for that pair sees only the most recently enrolled data — and
does not touch the live records of any other pair. -/
theorem method_upsert_replaces (tbl : List MethodRecord) (r : MethodRecord)
    (h : UniqueKeys tbl) :
    UniqueKeys (upsertMethod tbl r) ∧
    liveRecords (upsertMethod tbl r) r.user_id r.method_type = [r] ∧
    (∀ uid m, ¬(uid = r.user_id ∧ m = r.method_type) →
      liveRecords (upsertMethod tbl r) uid m = liveRecords tbl uid m) := by
  unfold upsertMethod
  split <;> rename_i hany
  · simp only [List.any_eq_true, decide_eq_true_eq] at hany
    refine ⟨?_, ?_, fun uid m hne => filter_upsertMap_other r uid m hne tbl⟩
    · unfold UniqueKeys at h ⊢
      rw [List.pairwise_map]
      refine h.imp ?_
      intro a b hab
      by_cases hpa : a.user_id = r.user_id ∧ a.method_type = r.method_type <;>
        by_cases hpb : b.user_id = r.user_id ∧ b.method_type = r.method_type
      · rw [if_pos hpa, if_pos hpb]
        exact absurd ⟨hpa.1.trans hpb.1.symm, hpa.2.trans hpb.2.symm⟩ hab
      · rw [if_pos hpa, if_neg hpb]
        intro hc
        exact hpb ⟨hc.1.symm, hc.2.symm⟩
      · rw [if_neg hpa, if_pos hpb]
        exact hpa
      · rw [if_neg hpa, if_neg hpb]
        exact hab
    · exact filter_upsertMap_key r tbl h hany
  · simp only [List.any_eq_true, decide_eq_true_eq, not_exists, not_and] at hany
    refine ⟨?_, ?_, ?_⟩
    · unfold UniqueKeys at h ⊢
      rw [List.pairwise_append]
      refine ⟨h, List.pairwise_singleton _ _, ?_⟩
      intro a ha b hb
      rw [List.mem_singleton] at hb
      subst hb
      intro hc
      exact hany a ha hc.1 hc.2
    · unfold liveRecords
      rw [List.filter_append]
      have h1 : tbl.filter
          (fun x => (x.user_id = r.user_id ∧ x.method_type = r.method_type : Bool)) = [] := by
        rw [List.filter_eq_nil_iff]
        intro x hx
        simp only [decide_eq_true_eq]
        intro hc
        exact hany x hx hc.1 hc.2
      rw [h1]
      simp
    · intro uid m hne
      unfold liveRecords
      rw [List.filter_append]
      have h1 : [r].filter (fun x => (x.user_id = uid ∧ x.method_type = m : Bool)) = [] := by
        rw [List.filter_eq_nil_iff]
        intro x hx
        rw [List.mem_singleton] at hx
        subst hx
        simp only [decide_eq_true_eq]
        intro hc
        exact hne ⟨hc.1.symm, hc.2.symm⟩
      rw [h1, List.append_nil]

/-- A first face enrollment record for `u1`. -/
def faceRecOld : MethodRecord :=
  { user_id := u1, method_type := .face, is_enrolled := true, enrolled_at := some 1 }

/-- A re-enrollment record for the same `(u1, face)` pair. -/
def faceRecNew : MethodRecord :=
  { user_id := u1, method_type := .face, is_enrolled := true, enrolled_at := some 2 }

/-- C6 witness: re-enrolling `(u1, face)` over an existing record leaves
exactly one live record — the new one — and the table stays unique-keyed. -/
theorem method_upsert_replaces_witness :
    UniqueKeys [faceRecOld] ∧
    UniqueKeys (upsertMethod [faceRecOld] faceRecNew) ∧
    liveRecords (upsertMethod [faceRecOld] faceRecNew)
      faceRecNew.user_id faceRecNew.method_type = [faceRecNew] := by
  have hu : UniqueKeys [faceRecOld] := List.pairwise_singleton _ _
  have h := method_upsert_replaces [faceRecOld] faceRecNew hu
  exact ⟨hu, h.1, h.2.1⟩

/-- The audit state `logAuthAttempt` leaves behind, whether or not an
insert failed along the way. -/
def logResult (db : AuditDb) (b1 b2 : DbCall) (rec : LogRec) : AuditDb :=
  match logAuthAttemptBody db b1 b2 rec with
  | .ok d => d
  | .error d => d

/-- `logAuthAttempt` always resolves normally: every behavior of its two
inserts, including a rejection, ends in `.ok`. -/
theorem logAuthAttempt_eq (db : AuditDb) (b1 b2 : DbCall) (rec : LogRec) :
    logAuthAttempt db b1 b2 rec = .ok (logResult db b1 b2 rec) := by
  unfold logAuthAttempt logResult
  cases logAuthAttemptBody db b1 b2 rec <;> rfl

/-- C10: a failing audit write never changes the outcome of the operation
that produced it. The body of `logAuthAttempt` can genuinely raise (a
rejected first insert escapes the body), but the function's own catch
swallows it, so the call always resolves; consequently every
caller-visible outcome of a PIN enrollment/verification (`onComplete`
argument, component state, `pins` store, `onClose`, error handling) and of
a voice coordinator run is identical whatever the two audit inserts do. -/
theorem audit_write_failure_isolated (db : AuditDb) (b1 b2 : DbCall) (rec : LogRec)
    (mode : PinMode) (uid : String) (st : PinCompState) (store : List (String × String))
    (audit : AuditDb) (sel ups l1 l2 l1' l2' : DbCall)
    (vmode : AuthMode) (eb : Bool) (vr : ApiVerifyResult) :
    logAuthAttempt db b1 b2 rec = .ok (logResult db b1 b2 rec) ∧
    logAuthAttemptBody db .throws b2 rec = .error db ∧
    ((processPinAuth mode uid st store audit
        { selectCall := sel, upsertCall := ups, logCall1 := l1, logCall2 := l2 }).completeArg =
      (processPinAuth mode uid st store audit
        { selectCall := sel, upsertCall := ups, logCall1 := l1', logCall2 := l2' }).completeArg) ∧
    ((processPinAuth mode uid st store audit
        { selectCall := sel, upsertCall := ups, logCall1 := l1, logCall2 := l2 }).state =
      (processPinAuth mode uid st store audit
        { selectCall := sel, upsertCall := ups, logCall1 := l1', logCall2 := l2' }).state) ∧
    ((processPinAuth mode uid st store audit
        { selectCall := sel, upsertCall := ups, logCall1 := l1, logCall2 := l2 }).pins =
      (processPinAuth mode uid st store audit
        { selectCall := sel, upsertCall := ups, logCall1 := l1', logCall2 := l2' }).pins) ∧
    ((processPinAuth mode uid st store audit
        { selectCall := sel, upsertCall := ups, logCall1 := l1, logCall2 := l2 }).closeCalled =
      (processPinAuth mode uid st store audit
        { selectCall := sel, upsertCall := ups, logCall1 := l1', logCall2 := l2' }).closeCalled) ∧
    ((processPinAuth mode uid st store audit
        { selectCall := sel, upsertCall := ups, logCall1 := l1, logCall2 := l2 }).caughtError =
      (processPinAuth mode uid st store audit
        { selectCall := sel, upsertCall := ups, logCall1 := l1', logCall2 := l2' }).caughtError) ∧
    ((processVoiceAuth vmode uid eb vr audit l1 l2).completeArg =
      (processVoiceAuth vmode uid eb vr audit l1' l2').completeArg) ∧
    ((processVoiceAuth vmode uid eb vr audit l1 l2).methodUpdateCalled =
      (processVoiceAuth vmode uid eb vr audit l1' l2').methodUpdateCalled) := by
  refine ⟨logAuthAttempt_eq db b1 b2 rec, rfl, ?_⟩
  cases mode <;>
    simp [processPinAuth, processVoiceAuth, logAuthAttempt_eq] <;>
    split_ifs <;>
    (try cases ups) <;> (try cases sel) <;> simp [logAuthAttempt_eq]

/-- The reachable-state invariant of the PIN dialog. -/
def PinInv (mode : PinMode) (st : PinCompState) : Prop :=
  st.pin.length ≤ 6 ∧ st.confirmPin.length ≤ 6 ∧
  (st.pinStep = .confirm → 4 ≤ st.pin.length ∧ mode = .enroll)

theorem processPinAuth_state_inv (mode : PinMode) (uid : String) (st : PinCompState)
    (store : List (String × String)) (audit : AuditDb) (w : PinWorld)
    (h : PinInv mode st) :
    PinInv mode (processPinAuth mode uid st store audit w).state := by
  obtain ⟨h1, h2, h3⟩ := h
  cases mode <;> dsimp only [processPinAuth]
  · by_cases he : st.pinStep = PinStep.enter
    · rw [if_pos he]
      by_cases hl : st.pin.length < 4
      · rw [if_pos hl]
        exact ⟨h1, h2, h3⟩
      · rw [if_neg hl]
        dsimp only [pinNoEffect]
        refine ⟨h1, h2, fun _ => ⟨?_, rfl⟩⟩
        show 4 ≤ st.pin.length
        omega
    · rw [if_neg he]
      by_cases hm : st.pin ≠ st.confirmPin
      · rw [if_pos hm]
        dsimp only [pinNoEffect]
        refine ⟨by simp, by simp, ?_⟩
        intro hc
        simp at hc
      · rw [if_neg hm]
        cases hw : w.upsertCall <;> dsimp only [pinNoEffect]
        · cases hlog : logAuthAttempt audit w.logCall1 w.logCall2
              { user_id := uid, method_type := .pin, success := true
                confidence_score := none, metadata := none } <;>
            exact ⟨h1, h2, h3⟩
        · exact ⟨h1, h2, h3⟩
        · exact ⟨h1, h2, h3⟩
  · by_cases hl : st.pin.length < 4
    · rw [if_pos hl]
      exact ⟨h1, h2, h3⟩
    · rw [if_neg hl]
      cases hw : w.selectCall <;> dsimp only [pinNoEffect]
      · cases hlog : logAuthAttempt audit w.logCall1 w.logCall2
            { user_id := uid, method_type := .pin
              success := (pinsLookup store uid = some (hashPin st.pin) : Bool)
              confidence_score := none, metadata := none } <;> dsimp only []
        · exact ⟨h1, h2, h3⟩
        · by_cases hs : pinsLookup store uid = some (hashPin st.pin)
          · rw [if_pos hs]
            exact ⟨h1, h2, h3⟩
          · rw [if_neg hs]
            by_cases hat : maxAttempts ≤ st.attempts + 1
            · rw [if_pos hat]
              exact ⟨h1, h2, fun hc => absurd (h3 hc).2 (by simp)⟩
            · rw [if_neg hat]
              exact ⟨by simp, h2, fun hc => absurd (h3 hc).2 (by simp)⟩
      · exact ⟨h1, h2, h3⟩
      · exact ⟨h1, h2, h3⟩

theorem runPinEvent_preserves_inv (mode : PinMode) (uid : String) (sys : PinSystem)
    (ev : PinEvent) (h : PinInv mode sys.comp) :
    PinInv mode (runPinEvent mode uid sys ev).comp := by
  obtain ⟨h1, h2, h3⟩ := h
  cases ev with
  | press d =>
    dsimp only [runPinEvent, handleNumberPress]
    by_cases ha : sys.comp.pinStep = PinStep.enter ∧ sys.comp.pin.length < 6
    · rw [if_pos ha]
      refine ⟨?_, h2, ?_⟩
      · show (sys.comp.pin.push d).length ≤ 6
        rw [String.length_push]
        omega
      · intro hc
        rw [show ({ sys.comp with pin := sys.comp.pin.push d } : PinCompState).pinStep =
          sys.comp.pinStep from rfl] at hc
        exact absurd (hc ▸ ha.1) (by simp)
    · rw [if_neg ha]
      by_cases hb : sys.comp.pinStep = PinStep.confirm ∧ sys.comp.confirmPin.length < 6
      · rw [if_pos hb]
        refine ⟨h1, ?_, ?_⟩
        · show (sys.comp.confirmPin.push d).length ≤ 6
          rw [String.length_push]
          omega
        · intro _
          exact h3 hb.1
      · rw [if_neg hb]
        exact ⟨h1, h2, h3⟩
  | del =>
    dsimp only [runPinEvent, handleDelete]
    by_cases he : sys.comp.pinStep = PinStep.enter
    · rw [if_pos he]
      refine ⟨?_, h2, ?_⟩
      · show sys.comp.pin.data.dropLast.length ≤ 6
        rw [List.length_dropLast]
        have hd : sys.comp.pin.data.length ≤ 6 := h1
        omega
      · intro hc
        exact absurd (hc ▸ he) (by simp)
    · rw [if_neg he]
      refine ⟨h1, ?_, h3⟩
      show sys.comp.confirmPin.data.dropLast.length ≤ 6
      rw [List.length_dropLast]
      have hd : sys.comp.confirmPin.data.length ≤ 6 := h2
      omega
  | clear =>
    dsimp only [runPinEvent, handleClear]
    by_cases he : sys.comp.pinStep = PinStep.enter
    · rw [if_pos he]
      refine ⟨by simp, h2, ?_⟩
      intro hc
      exact absurd (hc ▸ he) (by simp)
    · rw [if_neg he]
      exact ⟨h1, by simp, h3⟩
  | submit w =>
    exact processPinAuth_state_inv mode uid sys.comp sys.pins sys.audit w ⟨h1, h2, h3⟩

theorem runPinEvents_preserves_inv (mode : PinMode) (uid : String) (evs : List PinEvent) :
    ∀ sys : PinSystem, PinInv mode sys.comp →
      PinInv mode (runPinEvents mode uid sys evs).comp := by
  induction evs with
  | nil => exact fun sys h => h
  | cons e es ih =>
    intro sys h
    exact ih _ (runPinEvent_preserves_inv mode uid sys e h)

theorem processPinAuth_rejects_short (mode : PinMode) (uid : String) (st : PinCompState)
    (store : List (String × String)) (audit : AuditDb) (w : PinWorld)
    (h : PinInv mode st) (hshort : (currentPin st).length < 4) :
    (processPinAuth mode uid st store audit w).pins = store ∧
    (processPinAuth mode uid st store audit w).audit = audit ∧
    (processPinAuth mode uid st store audit w).completeArg = none ∧
    (processPinAuth mode uid st store audit w).caughtError = false := by
  obtain ⟨h1, h2, h3⟩ := h
  cases mode <;> dsimp only [processPinAuth]
  · by_cases he : st.pinStep = PinStep.enter
    · rw [if_pos he]
      have hl : st.pin.length < 4 := by
        unfold currentPin at hshort
        rwa [if_pos he] at hshort
      rw [if_pos hl]
      exact ⟨rfl, rfl, rfl, rfl⟩
    · rw [if_neg he]
      have hstep : st.pinStep = PinStep.confirm := by
        cases hps : st.pinStep
        · exact absurd hps he
        · rfl
      have hcl : st.confirmPin.length < 4 := by
        unfold currentPin at hshort
        rwa [if_neg he] at hshort
      have hpl : 4 ≤ st.pin.length := (h3 hstep).1
      have hne : st.pin ≠ st.confirmPin := by
        intro hc
        have hlen : st.pin.length = st.confirmPin.length := by rw [hc]
        omega
      rw [if_pos hne]
      exact ⟨rfl, rfl, rfl, rfl⟩
  · have hstep : st.pinStep = PinStep.enter := by
      cases hps : st.pinStep
      · rfl
      · exact absurd (h3 hps).2 (by simp)
    have hl : st.pin.length < 4 := by
      unfold currentPin at hshort
      rwa [if_pos hstep] at hshort
    rw [if_pos hl]
    exact ⟨rfl, rfl, rfl, rfl⟩

/-- C9: through the PIN dialog's interface, the active field never exceeds
6 digits (a press on a full field is a no-op), and a submission whose
current field holds fewer than 4 digits is rejected before anything
happens: the `pins` store, the audit tables, and the parent (`onComplete`)
are untouched, and no error is raised. -/
theorem pin_length_constraints (mode : PinMode) (uid : String)
    (store : List (String × String)) (audit : AuditDb) (evs : List PinEvent) :
    (runPinEvents mode uid (initPinSystem store audit) evs).comp.pin.length ≤ 6 ∧
    (runPinEvents mode uid (initPinSystem store audit) evs).comp.confirmPin.length ≤ 6 ∧
    (∀ st : PinCompState, ∀ d : Char, st.pinStep = .enter → 6 ≤ st.pin.length →
      handleNumberPress st d = st) ∧
    ((currentPin (runPinEvents mode uid (initPinSystem store audit) evs).comp).length < 4 →
      ∀ w,
        (processPinAuth mode uid (runPinEvents mode uid (initPinSystem store audit) evs).comp
          (runPinEvents mode uid (initPinSystem store audit) evs).pins
          (runPinEvents mode uid (initPinSystem store audit) evs).audit w).pins =
            (runPinEvents mode uid (initPinSystem store audit) evs).pins ∧
        (processPinAuth mode uid (runPinEvents mode uid (initPinSystem store audit) evs).comp
          (runPinEvents mode uid (initPinSystem store audit) evs).pins
          (runPinEvents mode uid (initPinSystem store audit) evs).audit w).audit =
            (runPinEvents mode uid (initPinSystem store audit) evs).audit ∧
        (processPinAuth mode uid (runPinEvents mode uid (initPinSystem store audit) evs).comp
          (runPinEvents mode uid (initPinSystem store audit) evs).pins
          (runPinEvents mode uid (initPinSystem store audit) evs).audit w).completeArg = none ∧
        (processPinAuth mode uid (runPinEvents mode uid (initPinSystem store audit) evs).comp
          (runPinEvents mode uid (initPinSystem store audit) evs).pins
          (runPinEvents mode uid (initPinSystem store audit) evs).audit w).caughtError =
            false) := by
  have hinv : PinInv mode (runPinEvents mode uid (initPinSystem store audit) evs).comp := by
    refine runPinEvents_preserves_inv mode uid evs _ ⟨?_, ?_, ?_⟩
    · show ("" : String).length ≤ 6
      simp
    · show ("" : String).length ≤ 6
      simp
    · intro hc
      exact absurd hc (by simp [initPinSystem, initPinComp])
  refine ⟨hinv.1, hinv.2.1, ?_, ?_⟩
  · intro st d hstep hlen
    unfold handleNumberPress
    rw [if_neg (by omega), if_neg (by simp [hstep])]
  · intro hshort w
    exact processPinAuth_rejects_short mode uid _ _ _ w hinv hshort

/-- C9 witness: after pressing a single digit in verify mode, the current
field has 1 < 4 digits and submitting changes neither the `pins` store nor
the audit log and calls back nothing. -/
theorem pin_length_constraints_witness :
    (currentPin (runPinEvents .verify u1 (initPinSystem [] emptyAudit)
      [PinEvent.press ('1')]).comp).length < 4 ∧
    (runPinEvents .verify u1 (initPinSystem [] emptyAudit)
      [PinEvent.press ('1')]).comp.pin.length ≤ 6 ∧
    (processPinAuth .verify u1
      (runPinEvents .verify u1 (initPinSystem [] emptyAudit) [PinEvent.press ('1')]).comp
      (runPinEvents .verify u1 (initPinSystem [] emptyAudit) [PinEvent.press ('1')]).pins
      (runPinEvents .verify u1 (initPinSystem [] emptyAudit) [PinEvent.press ('1')]).audit
      allOk).completeArg = none ∧
    (processPinAuth .verify u1
      (runPinEvents .verify u1 (initPinSystem [] emptyAudit) [PinEvent.press ('1')]).comp
      (runPinEvents .verify u1 (initPinSystem [] emptyAudit) [PinEvent.press ('1')]).pins
      (runPinEvents .verify u1 (initPinSystem [] emptyAudit) [PinEvent.press ('1')]).audit
      allOk).audit =
    (runPinEvents .verify u1 (initPinSystem [] emptyAudit) [PinEvent.press ('1')]).audit := by
  have h := pin_length_constraints .verify u1 [] emptyAudit [PinEvent.press ('1')]
  have hshort : (currentPin (runPinEvents .verify u1 (initPinSystem [] emptyAudit)
      [PinEvent.press ('1')]).comp).length < 4 := by decide
  have h4 := h.2.2.2 hshort allOk
  exact ⟨hshort, h.1, h4.2.2.1, h4.2.1⟩


end AuthentiX
